import Mathlib

/-!
Verification development for the AI-PS process classification, labelling and
anomaly-scoring pipeline.

The definitions below are a shallow embedding of the Python sources:
* `backend/process_classifier.py` — `ProcessClassifier.classify_process`,
  `ProcessClassifier._match_rule`;
* `backend/label_manager.py` — `LabelManager.add_label`, `remove_label`,
  `get_process_labels`, `search_by_tag`, `merge_with_classification`,
  `save_labels`, `load_labels`;
* `backend/analyzer.py` — `ProcessAnomalyDetector.detect`;
* `backend/detector.py` — `AnomalyDetector.detect`, `AnomalyDetector.explain`;
* `backend/api_server.py` — `get_visual_hint`, `calculate_priority`.

Python floats are modelled as rationals (`ℚ`), Python `dict` as an
insertion-ordered association list, Python `set` as a duplicate-free list
(with the deterministic insertion order standing for the set's arbitrary
iteration order), and Python exceptions as `Except String`.
-/

deriving instance DecidableEq for Except

namespace AIPS

/-- Substring test on character lists: `substrAt needle hay` is true iff
`needle` occurs contiguously in `hay`.  Models the Python `in` operator on
strings. -/
def substrAt (needle : List Char) : List Char → Bool
  | [] => needle.isEmpty
  | c :: rest => needle.isPrefixOf (c :: rest) || substrAt needle rest

/-- Models Python's `keyword.lower() in process_name.lower()`. -/
def pyIn (needle hay : String) : Bool :=
  substrAt (needle.toList.map Char.toLower) (hay.toList.map Char.toLower)

/-- Models Python's `round(x, 2)`: round the exact rational to two decimal
places, i.e. `⌊100*q + 1/2⌋ / 100` (see `round2_eq` below), written with
integer operations on numerator and denominator so that the kernel can
evaluate it.  Python's `round` uses banker's rounding on IEEE doubles; the
two only differ on exact halfway ties, which no theorem below relies on. -/
def round2 (q : ℚ) : ℚ := mkRat ((200 * q.num + (q.den : ℤ)) / (2 * (q.den : ℤ))) 100

/-- `ProcessClassifier.process_categories`: the default category → keyword
table, in insertion order (`process_classifier.py` lines 16-23). -/
def process_categories : List (String × List String) :=
  [("system_critical", ["systemd", "init", "kthreadd", "udevd", "dbus"]),
   ("network_services", ["sshd", "nginx", "apache", "postgres", "mysql", "redis"]),
   ("user_applications", ["chrome", "firefox", "code", "pycharm", "sublime", "thunderbird"]),
   ("background_workers", ["cron", "atd", "worker", "celery", "supervisord"]),
   ("development_tools", ["python", "java", "node", "golang", "docker"]),
   ("security_services", ["fail2ban", "firewalld", "auditd", "clamav"])]

/-- `category_scores[k] = category_scores.get(k, 0) + delta` on a Python
dict modelled as an insertion-ordered association list: an existing key is
updated in place, a new key is appended at the end. -/
def bump (scores : List (String × Int)) (key : String) (delta : Int) :
    List (String × Int) :=
  if scores.any (fun e => e.1 == key) then
    scores.map (fun e => if e.1 == key then (e.1, e.2 + delta) else e)
  else scores ++ [(key, delta)]

/-- Step 1 of `classify_process` (lines 103-107): every case-insensitive
substring match of a category keyword against the process name adds 1 to
that category's score. -/
def nameScores (process_name : String) : List (String × Int) :=
  process_categories.foldl
    (fun sc ck =>
      ck.2.foldl (fun sc kw => if pyIn kw process_name then bump sc ck.1 1 else sc) sc)
    []

/-- Step 2 of `classify_process` (lines 109-120): the mutually exclusive
resource-pattern branches, returning updated scores and suggested tags. -/
def resourceStep (sc : List (String × Int)) (tags : List String)
    (cpu_usage memory_usage : ℚ) : List (String × Int) × List String :=
  if cpu_usage < 1 ∧ memory_usage < 1 then
    (bump sc "idle_process" 2, tags ++ ["low_resource"])
  else if cpu_usage > 50 then
    (bump sc "cpu_intensive" 2, tags ++ ["cpu_intensive"])
  else if memory_usage > 30 then
    (sc, tags ++ ["memory_intensive"])
  else if 5 ≤ cpu_usage ∧ cpu_usage ≤ 30 ∧ 5 ≤ memory_usage ∧ memory_usage ≤ 20 then
    (sc, tags ++ ["stable_process"])
  else (sc, tags)

/-- A custom classification rule (`process_classifier.py` lines 154-160).
Fields that a malformed rule may lack are `Option`s; `none` models a
missing dictionary key (`rule.get(...)` then yields the default). -/
structure Rule where
  category : Option String
  keywords : Option (List String)
  cpu_threshold : Option ℚ
  memory_threshold : Option ℚ
  weight : Option Int
deriving DecidableEq

/-- `ProcessClassifier._match_rule` (lines 163-181): keyword substring
match, and each threshold passes when absent or strictly exceeded. -/
def matchRule (rule : Rule) (process_name : String) (cpu memory : ℚ) : Bool :=
  let keyword_match := (rule.keywords.getD []).any (fun kw => pyIn kw process_name)
  let cpu_match := match rule.cpu_threshold with
    | none => true
    | some t => decide (cpu > t)
  let memory_match := match rule.memory_threshold with
    | none => true
    | some t => decide (memory > t)
  keyword_match && cpu_match && memory_match

/-- Step 3 of `classify_process` (lines 121-124): each matching rule adds
its weight (default 1) to its category's score.  Accessing
`rule['category']` on a rule without that key raises a `KeyError`, which is
not caught anywhere in `classify_process`. -/
def applyRules (process_name : String) (cpu memory : ℚ) :
    List Rule → List (String × Int) → Except String (List (String × Int))
  | [], sc => .ok sc
  | rule :: rest, sc =>
    if matchRule rule process_name cpu memory then
      match rule.category with
      | some c => applyRules process_name cpu memory rest (bump sc c (rule.weight.getD 1))
      | none => .error "KeyError: category"
    else applyRules process_name cpu memory rest sc

/-- Python's `max(d, key=d.get)` over a non-empty dict: the first entry
with the maximal value (a later entry replaces the current one only when
strictly greater). -/
def firstMax : List (String × Int) → Option (String × Int)
  | [] => none
  | e :: rest => some (rest.foldl (fun b x => if x.2 > b.2 then x else b) e)

/-- Step 5 of `classify_process` (lines 134-138): the default
`performance_tags` table evaluated in insertion order, appending each
firing tag not already suggested. -/
def performanceTags (cpu_usage memory_usage : ℚ) (tags : List String) : List String :=
  [("cpu_intensive", decide (cpu_usage > 70)),
   ("memory_intensive", decide (memory_usage > 30)),
   ("low_resource", decide (cpu_usage < 5 ∧ memory_usage < 5)),
   ("stable_process",
     decide (5 ≤ cpu_usage ∧ cpu_usage ≤ 30 ∧ 5 ≤ memory_usage ∧ memory_usage ≤ 20)),
   ("high_io", false)].foldl
    (fun tags tc => if tc.2 && !(tags.contains tc.1) then tags ++ [tc.1] else tags)
    tags

/-- The dictionary returned by `classify_process` (lines 140-147). -/
structure ClassResult where
  category : String
  tags : List String
  confidence : ℚ
  cpu_usage : ℚ
  memory_usage : ℚ
  process_name : String
deriving DecidableEq

/-- `ProcessClassifier.classify_process` (lines 96-147) with the default
category table and performance tags, parameterized by the classifier's
`custom_rules` state.  The two uncaught Python exceptions are modelled as
`Except.error`: a `KeyError` from a firing rule without a `category` key,
and a `ZeroDivisionError` when the scores sum to zero. -/
def classifyProcess (custom_rules : List Rule) (process_name : String)
    (cpu_usage memory_usage : ℚ) : Except String ClassResult :=
  let sc1 := nameScores process_name
  let st := resourceStep sc1 [] cpu_usage memory_usage
  match applyRules process_name cpu_usage memory_usage custom_rules st.1 with
  | .error e => .error e
  | .ok sc =>
    match firstMax sc with
    | some fm =>
      let total := (sc.map (fun e => e.2)).sum
      if total = 0 then .error "ZeroDivisionError"
      else
        .ok { category := fm.1,
              tags := performanceTags cpu_usage memory_usage st.2,
              confidence := round2 (Rat.divInt fm.2 total),
              cpu_usage := cpu_usage, memory_usage := memory_usage,
              process_name := process_name }
    | none =>
      .ok { category := "unknown",
            tags := performanceTags cpu_usage memory_usage st.2,
            confidence := 0,
            cpu_usage := cpu_usage, memory_usage := memory_usage,
            process_name := process_name }

/-- `color_map` in `get_visual_hint` (`api_server.py` lines 120-128). -/
def color_map : List (String × String) :=
  [("system_critical", "red"), ("network_services", "blue"),
   ("user_applications", "green"), ("development_tools", "cyan"),
   ("security_services", "orange"), ("cpu_intensive", "orange"),
   ("memory_intensive", "purple")]

/-- Association-list lookup modelling Python `category in map` / `map[category]`. -/
def lookupStr (m : List (String × String)) (k : String) : Option String :=
  (m.find? (fun e => e.1 == k)).map (fun e => e.2)

/-- The `color` computation of `get_visual_hint` (`api_server.py`
lines 114-144), a function of the merged process info's category,
`cpu_usage`, `memory_usage` and `user_labels`. -/
def visualHintColor (category : String) (cpu_usage memory_usage : ℚ)
    (user_labels : List String) : String :=
  let color := if user_labels.contains "high_priority" then "darkred"
    else if user_labels.contains "monitor_closely" then "orange"
    else match lookupStr color_map category with
      | some c => c
      | none => "gray"
  let color := if cpu_usage > 70 ∧ color = "gray" then "orange" else color
  if memory_usage > 50 ∧ color = "gray" then "purple" else color

/-- `get_category_icon` (`api_server.py` lines 152-166). -/
def get_category_icon (category : String) : String :=
  (lookupStr
    [("system_critical", "🔴"), ("network_services", "🌐"),
     ("user_applications", "💻"), ("background_workers", "⚙️"),
     ("development_tools", "🔧"), ("security_services", "🔒"),
     ("cpu_intensive", "🔥"), ("memory_intensive", "💾"),
     ("idle_process", "💤"), ("unknown", "❓")] category).getD "❓"

/-- `calculate_priority` (`api_server.py` lines 169-186). -/
def calculate_priority (user_labels : List String) (category : String)
    (cpu_usage : ℚ) : Int :=
  let priority : Int := 5
  let priority := if user_labels.contains "high_priority" then 9
    else if user_labels.contains "business_critical" then 8
    else priority
  let priority := if category = "system_critical" then max priority 9 else priority
  let priority := if cpu_usage > 80 then max priority 8 else priority
  min priority 10

/-! ## Label Store (`label_manager.py`) -/

/-- A `labels_db` record (`label_manager.py` line 18):
`{'tags': set(), 'notes': str, 'last_updated': str}`.  The Python tag set
is modelled as a duplicate-free list; its deterministic order stands for
the set's arbitrary iteration order. -/
structure LabelRecord where
  tags : List String
  notes : String
  lastUpdated : String
deriving DecidableEq

/-- `labels_db`: a Python dict `pid -> record` as an insertion-ordered
association list with unique keys. -/
abbrev LabelsDb := List (Nat × LabelRecord)

/-- Dict membership/lookup `labels_db.get(pid)`. -/
def lookupRec (db : LabelsDb) (pid : Nat) : Option LabelRecord :=
  (db.find? (fun e => e.1 == pid)).map (fun e => e.2)

/-- In-place mutation `labels_db[pid] = f(labels_db[pid])` of an existing
key: every entry whose key equals `pid` (exactly one, since dict keys are
unique) is rewritten, all others are untouched. -/
def updateRec (db : LabelsDb) (pid : Nat) (f : LabelRecord → LabelRecord) : LabelsDb :=
  db.map (fun e => if e.1 == pid then (e.1, f e.2) else e)

/-- `del labels_db[pid]`: drop the entry with key `pid`. -/
def eraseKey (db : LabelsDb) (pid : Nat) : LabelsDb :=
  db.filter (fun e => !(e.1 == pid))

/-- Python `set.add`: insert if absent (idempotent). -/
def pySetAdd (tags : List String) (t : String) : List String :=
  if tags.contains t then tags else tags ++ [t]

/-- The record mutation performed by `add_label` on an existing (or
freshly created) record: add the tag, set the note only when a truthy
(non-`None`, non-empty) note is supplied, refresh the timestamp. -/
def addMutate (label : String) (note : Option String) (now : String)
    (r : LabelRecord) : LabelRecord :=
  let r := { r with tags := pySetAdd r.tags label }
  let r := match note with
    | some n => if n = "" then r else { r with notes := n }
    | none => r
  { r with lastUpdated := now }

/-- `LabelManager.add_label` (lines 31-54): create the record if absent,
then mutate it via `addMutate`.  The persistence write it triggers is
modelled separately by `save_labels`.  The Python method always returns
`True`, so the return value is omitted. -/
def add_label (db : LabelsDb) (pid : Nat) (label : String) (note : Option String)
    (now : String) : LabelsDb :=
  let db := if (lookupRec db pid).isSome then db
    else db ++ [(pid, { tags := [], notes := "", lastUpdated := now })]
  updateRec db pid (addMutate label note now)

/-- The record mutation performed by `remove_label` when the tag set stays
non-empty: drop the tag and refresh the timestamp. -/
def removeMutate (label : String) (now : String) (r : LabelRecord) : LabelRecord :=
  { r with tags := r.tags.erase label, lastUpdated := now }

/-- `LabelManager.remove_label` (lines 56-68): returns `false` when the
pid has no such tag; otherwise removes the tag, refreshes the timestamp,
and deletes the whole record when its tag set becomes empty. -/
def remove_label (db : LabelsDb) (pid : Nat) (label : String) (now : String) :
    LabelsDb × Bool :=
  match lookupRec db pid with
  | some r0 =>
    if label ∈ r0.tags then
      if (r0.tags.erase label).isEmpty then (eraseKey db pid, true)
      else (updateRec db pid (removeMutate label now), true)
    else (db, false)
  | none => (db, false)

/-- `LabelManager.get_process_labels` (lines 70-72): the pid's tag set,
empty when absent. -/
def get_process_labels (db : LabelsDb) (pid : Nat) : List String :=
  ((lookupRec db pid).map (fun r => r.tags)).getD []

/-- `LabelManager.search_by_tag` (lines 78-84): pids whose record carries
the tag, in store iteration order. -/
def search_by_tag (db : LabelsDb) (tag : String) : List Nat :=
  (db.filter (fun e => tag ∈ e.2.tags)).map (fun e => e.1)

/-- `LabelManager.merge_with_classification` (lines 105-122), one result:
the pid presence test is Python truthiness (`if pid:`), so `None` and `0`
both take the empty branch. -/
def pyTruthy : Option Nat → Bool
  | none => false
  | some p => p != 0

/-- One merged entry of `merge_with_classification`: the classification
result (carried through unchanged) plus the attached `manual_labels` and
`has_manual_labels` keys. -/
structure MergedResult where
  classification : ClassResult
  pid : Option Nat
  manual_labels : List String
  has_manual_labels : Bool
deriving DecidableEq

/-- `LabelManager.merge_with_classification` (lines 105-122) over a batch:
for a truthy pid the store's labels are attached, otherwise empty labels
and a `false` flag. -/
def merge_with_classification (db : LabelsDb) (results : List (ClassResult × Option Nat)) :
    List MergedResult :=
  results.map (fun rp =>
    if pyTruthy rp.2 then
      let labels := get_process_labels db (rp.2.getD 0)
      { classification := rp.1, pid := rp.2, manual_labels := labels,
        has_manual_labels := decide (labels.length > 0) }
    else
      { classification := rp.1, pid := rp.2, manual_labels := [],
        has_manual_labels := false })

/-- Model of Python `str(pid)` for a non-negative integer: decimal
digits, most significant first. -/
def natToStr (n : Nat) : String :=
  if n = 0 then "0"
  else String.mk (((Nat.digits 10 n).reverse).map (fun d => Char.ofNat (48 + d)))

/-- Model of Python `int(s)` on a decimal-digit string. -/
def strToNat (s : String) : Nat :=
  Nat.ofDigits 10 ((s.toList.map (fun c => c.toNat - 48)).reverse)

/-- `LabelManager.save_labels` (lines 125-141): the `labels` part of the
persisted JSON document — each pid key stringified, each tag set
serialized as a list (the identity in this model), notes and timestamp
verbatim.  The JSON file mechanics themselves are out of scope. -/
def save_labels (db : LabelsDb) : List (String × LabelRecord) :=
  db.map (fun e => (natToStr e.1, e.2))

/-- `LabelManager.load_labels` (lines 143-163): rebuild `labels_db` from
the persisted document, parsing each pid key back to an integer and each
tag list back into a set. -/
def load_labels (saved : List (String × LabelRecord)) : LabelsDb :=
  saved.map (fun e => (strToNat e.1, e.2))

/-! ## Anomaly detectors (`analyzer.py`, `detector.py`) -/

/-- A `ProcessSample`: the per-process dictionary consumed by the
detectors, with the fixed-order numeric features `cpu, memory, threads,
nice`. -/
structure Sample where
  pid : Int
  name : String
  cpu : ℚ
  memory : ℚ
  threads : Int
  nice : Int
deriving DecidableEq

/-- A sample as returned by `ProcessAnomalyDetector.detect`
(`analyzer.py`): the input dictionary with `anomaly` and `score` keys
added. -/
structure AnalyzerOut where
  sample : Sample
  anomaly : Bool
  score : ℚ
deriving DecidableEq

/-- `ProcessAnomalyDetector.detect` (`analyzer.py` lines 13-37).  The
IsolationForest is external: it is modelled as a function from the batch
feature matrix to the prediction and decision-function vectors, consulted
only in the `≥ 10` branch. -/
def ProcessAnomalyDetector.detect (model : List (List ℚ) → List Int × List ℚ)
    (processes : List Sample) : List AnalyzerOut :=
  if processes.length < 10 then
    processes.map (fun p => { sample := p, anomaly := false, score := 0 })
  else
    let features := processes.map (fun p =>
      [p.cpu, p.memory, (p.threads : ℚ), (p.nice : ℚ)])
    let pr := model features
    processes.enum.map (fun ip =>
      { sample := ip.2, anomaly := pr.1.getD ip.1 1 == -1, score := pr.2.getD ip.1 0 })

/-- The CPU commentary of `AnomalyDetector.explain` (`detector.py`
lines 71-76). -/
def cpuComment (p : Sample) : String :=
  if p.cpu > 80 then "CPU 使用率较高，需关注运行状态"
  else if p.cpu > 20 then "CPU 使用率处于正常偏高区间"
  else "CPU 使用率正常"

/-- The memory commentary of `AnomalyDetector.explain` (lines 78-81). -/
def memComment (p : Sample) : String :=
  if p.memory > 5 then "内存占用偏高" else "内存占用正常"

/-- The thread commentary of `AnomalyDetector.explain` (lines 83-86). -/
def threadComment (p : Sample) : String :=
  if p.threads > 50 then "线程数较多，可能存在并发压力" else "线程数处于合理范围"

/-- The model-attribution message of `explain` (line 91). -/
def modelMsg : String := "行为模式与大多数进程显著不同，判定异常"

/-- The random-attribution message of `explain` (line 93). -/
def randomMsg : String := "存在潜在异常风险"

/-- The normal-compliance message of `explain` (line 95). -/
def normalMsg : String := "进程行为符合系统正常运行模式"

/-- `AnomalyDetector.explain` (`detector.py` lines 64-97). -/
def explain (p : Sample) (is_anomaly : Bool) (source : String) : List String :=
  let reasons := [cpuComment p, memComment p, threadComment p]
  if is_anomaly then
    if source = "model" then reasons ++ [modelMsg]
    else if source = "random" then reasons ++ [randomMsg]
    else reasons
  else reasons ++ [normalMsg]

/-- The per-sample anomaly-source assignment of `AnomalyDetector.detect`
(lines 116-121). -/
def sourceOf (model_anomaly random_anomaly : Bool) : String :=
  if model_anomaly then "model"
  else if random_anomaly then "random"
  else "normal"

/-- The per-sample dictionary built by `AnomalyDetector.detect`
(lines 123-133). -/
structure DetectorResult where
  pid : Int
  name : String
  cpu : ℚ
  memory : ℚ
  threads : Int
  nice : Int
  anomaly : Bool
  score : ℚ
  reasons : List String
deriving DecidableEq

/-- `AnomalyDetector.detect` (`detector.py` lines 99-135).  The external
model's batch prediction and score vectors, and the per-sample uniform
random draws, enter as functions of the sample index; the model flags a
sample anomalous when its prediction is `-1`, the random injection fires
when the draw is below `random_rate`. -/
def AnomalyDetector.detect (preds : Nat → Int) (scores : Nat → ℚ)
    (draws : Nat → ℚ) (random_rate : ℚ) (processes : List Sample) :
    List DetectorResult :=
  processes.enum.map (fun ip =>
    let p := ip.2
    let model_anomaly : Bool := preds ip.1 == -1
    let random_anomaly : Bool := decide (draws ip.1 < random_rate)
    let is_anomaly := model_anomaly || random_anomaly
    let source := sourceOf model_anomaly random_anomaly
    { pid := p.pid, name := p.name, cpu := p.cpu, memory := p.memory,
      threads := p.threads, nice := p.nice, anomaly := is_anomaly,
      score := scores ip.1, reasons := explain p is_anomaly source })

/-! ## Theorems -/

/-- C1 (counterexample): the invariant `confidence == 0 iff category ==
"unknown"` fails on the code.  With the custom rules `{category: "alpha",
keywords: ["x"], weight: 0}` and `{category: "beta", keywords: ["x"],
weight: -1}` (both well-formed: `classify_process` reads the weight with
`rule.get('weight', 1)` and never restricts its sign), the sample named
`"x"` with cpu 10, memory 1 accumulates scores `{alpha: 0, beta: -1}`;
`max` picks `alpha`, and `round(0 / -1, 2) == 0` although the category is
not `"unknown"`. -/
theorem classify_zero_confidence_known_category :
    ∃ r, classifyProcess
      [{ category := some "alpha", keywords := some ["x"], cpu_threshold := none,
         memory_threshold := none, weight := some 0 },
       { category := some "beta", keywords := some ["x"], cpu_threshold := none,
         memory_threshold := none, weight := some (-1) }] "x" 10 1 = .ok r ∧
      r.category ≠ "unknown" ∧ r.confidence = 0 :=
  ⟨{ category := "alpha", tags := [], confidence := 0, cpu_usage := 10,
     memory_usage := 1, process_name := "x" }, by decide, by decide, by decide⟩

/-- The only category keys that can ever receive a score when no custom
rules are configured: the six built-in name categories plus the two
resource-pattern categories. -/
def builtinScoreKeys : List String :=
  ["system_critical", "network_services", "user_applications", "background_workers",
   "development_tools", "security_services", "idle_process", "cpu_intensive"]

/-- Invariant of the score table built with no custom rules: every score
is at least 1, keys are unique, and keys are among the built-ins. -/
def ScoresInv (sc : List (String × Int)) : Prop :=
  (∀ e ∈ sc, 1 ≤ e.2) ∧ (sc.map Prod.fst).Nodup ∧
    ∀ k ∈ sc.map Prod.fst, k ∈ builtinScoreKeys

/-- `bump` leaves the key sequence unchanged for a present key and appends
the key otherwise. -/
theorem bump_keys (sc : List (String × Int)) (key : String) (d : Int) :
    (bump sc key d).map Prod.fst =
      if sc.any (fun e => e.1 == key) then sc.map Prod.fst
      else sc.map Prod.fst ++ [key] := by
  unfold bump
  by_cases h : sc.any (fun e => e.1 == key) = true
  · rw [if_pos h, if_pos h, List.map_map]
    apply List.map_congr_left
    intro e _
    by_cases he : e.1 = key <;> simp [he]
  · rw [if_neg h, if_neg h, List.map_append]
    rfl

/-- `bump` preserves the no-rules score invariant for a built-in key and a
positive increment. -/
theorem bump_inv (sc : List (String × Int)) (key : String) (d : Int)
    (hinv : ScoresInv sc) (hd : 1 ≤ d) (hkey : key ∈ builtinScoreKeys) :
    ScoresInv (bump sc key d) := by
  obtain ⟨hpos, hnd, hsub⟩ := hinv
  refine ⟨?_, ?_, ?_⟩
  · intro e' he'
    unfold bump at he'
    by_cases h : sc.any (fun e => e.1 == key) = true
    · rw [if_pos h] at he'
      obtain ⟨e, he, rfl⟩ := List.mem_map.mp he'
      by_cases hk : (e.1 == key) = true
      · rw [if_pos hk]
        show 1 ≤ e.2 + d
        have := hpos e he
        omega
      · rw [if_neg hk]
        exact hpos e he
    · rw [if_neg h] at he'
      rcases List.mem_append.mp he' with h1 | h1
      · exact hpos e' h1
      · rw [List.mem_singleton.mp h1]
        exact hd
  · rw [bump_keys]
    by_cases h : sc.any (fun e => e.1 == key) = true
    · rw [if_pos h]; exact hnd
    · rw [if_neg h]
      rw [List.nodup_append]
      refine ⟨hnd, List.nodup_singleton _, ?_⟩
      intro a ha hb
      rw [List.mem_singleton.mp hb] at ha
      obtain ⟨e, he, hk⟩ := List.mem_map.mp ha
      exact h (List.any_eq_true.mpr ⟨e, he, by simp [hk]⟩)
  · intro k hk
    rw [bump_keys] at hk
    by_cases h : sc.any (fun e => e.1 == key) = true
    · rw [if_pos h] at hk; exact hsub k hk
    · rw [if_neg h] at hk
      rcases List.mem_append.mp hk with h1 | h1
      · exact hsub k h1
      · rw [List.mem_singleton.mp h1]
        exact hkey

/-- Fold-invariance helper. -/
theorem foldl_preserve {α β : Type} {P : β → Prop} (f : β → α → β) (l : List α)
    (hstep : ∀ b a, a ∈ l → P b → P (f b a)) :
    ∀ b, P b → P (l.foldl f b) := by
  induction l with
  | nil => intro b hb; exact hb
  | cons x rest ih =>
    intro b hb
    exact ih (fun b a ha => hstep b a (List.mem_cons_of_mem _ ha)) _
      (hstep b x (List.mem_cons_self _ _) hb)

/-- Every default category name is a built-in score key. -/
theorem categories_keys_builtin : ∀ ck ∈ process_categories, ck.1 ∈ builtinScoreKeys := by
  decide

/-- The keyword-matching phase yields a score table satisfying the
no-rules invariant. -/
theorem nameScores_inv (process_name : String) : ScoresInv (nameScores process_name) := by
  unfold nameScores
  refine foldl_preserve _ process_categories ?_ [] ⟨by simp, by simp, by simp⟩
  intro sc ck hck hsc
  refine foldl_preserve _ ck.2 ?_ sc hsc
  intro sc2 kw _ hsc2
  by_cases hin : pyIn kw process_name = true
  · rw [if_pos hin]
    exact bump_inv sc2 ck.1 1 hsc2 le_rfl (categories_keys_builtin ck hck)
  · rw [if_neg hin]
    exact hsc2

/-- The resource-pattern phase preserves the no-rules invariant. -/
theorem resourceStep_inv (sc : List (String × Int)) (tags : List String)
    (cpu mem : ℚ) (h : ScoresInv sc) : ScoresInv (resourceStep sc tags cpu mem).1 := by
  unfold resourceStep
  split_ifs <;>
    first
      | exact bump_inv _ _ _ h (by norm_num) (by decide)
      | exact h

/-- The running first-maximum fold returns a member that dominates every
element. -/
theorem foldlMax_spec (x : String × Int) (rest : List (String × Int)) :
    (rest.foldl (fun b x => if x.2 > b.2 then x else b) x) ∈ x :: rest ∧
    ∀ e ∈ x :: rest, e.2 ≤ (rest.foldl (fun b x => if x.2 > b.2 then x else b) x).2 := by
  induction rest generalizing x with
  | nil =>
    refine ⟨List.mem_singleton.mpr rfl, ?_⟩
    intro e he
    rw [List.mem_singleton.mp he]
    exact le_rfl
  | cons y rest ih =>
    rw [List.foldl_cons]
    by_cases hyx : y.2 > x.2
    · rw [show (if y.2 > x.2 then y else x) = y from if_pos hyx]
      obtain ⟨ihmem, ihle⟩ := ih y
      refine ⟨List.mem_cons_of_mem x ihmem, ?_⟩
      intro e he
      rcases List.mem_cons.mp he with rfl | he2
      · exact le_trans (le_of_lt hyx) (ihle y (List.mem_cons_self _ _))
      · exact ihle e he2
    · rw [show (if y.2 > x.2 then y else x) = x from if_neg hyx]
      obtain ⟨ihmem, ihle⟩ := ih x
      refine ⟨?_, ?_⟩
      · rcases List.mem_cons.mp ihmem with h | h
        · rw [h]; exact List.mem_cons_self _ _
        · exact List.mem_cons_of_mem x (List.mem_cons_of_mem y h)
      · intro e he
        rcases List.mem_cons.mp he with rfl | he2
        · exact ihle e (List.mem_cons_self _ _)
        rcases List.mem_cons.mp he2 with rfl | he3
        · exact le_trans (not_lt.mp hyx) (ihle x (List.mem_cons_self _ _))
        · exact ihle e (List.mem_cons_of_mem x he3)

/-- Python's `max` over a non-empty score dict returns a member whose
value dominates all entries. -/
theorem firstMax_spec (l : List (String × Int)) (fm : String × Int)
    (h : firstMax l = some fm) : fm ∈ l ∧ ∀ e ∈ l, e.2 ≤ fm.2 := by
  cases l with
  | nil => cases h
  | cons x rest =>
    unfold firstMax at h
    rw [← (Option.some.injEq _ _).mp h]
    exact foldlMax_spec x rest

/-- `max` over an empty dict only happens for the empty score table. -/
theorem firstMax_eq_none (l : List (String × Int)) (h : firstMax l = none) :
    l = [] := by
  cases l with
  | nil => rfl
  | cons x rest => simp [firstMax] at h

/-- `round2` really is round-half-up to two decimal places. -/
theorem round2_eq (q : ℚ) : round2 q = (⌊q * 100 + 1 / 2⌋ : ℚ) / 100 := by
  unfold round2
  have hd : ((q.den : ℤ) : ℚ) ≠ 0 := by
    exact_mod_cast Nat.cast_ne_zero.mpr q.den_ne_zero
  have key : q * 100 + 1 / 2 =
      (((200 * q.num + (q.den : ℤ)) : ℤ) : ℚ) / (((2 * q.den : ℕ)) : ℚ) := by
    conv_lhs => rw [← Rat.num_div_den q]
    push_cast
    field_simp
    ring
  rw [key, Rat.floor_intCast_div_natCast, Rat.mkRat_eq_divInt, Rat.divInt_eq_div]
  push_cast
  ring_nf

/-- Unfolding `classify_process` with an empty custom-rule list. -/
theorem classifyProcess_no_rules (process_name : String) (cpu mem : ℚ) :
    classifyProcess [] process_name cpu mem =
      match firstMax (resourceStep (nameScores process_name) [] cpu mem).1 with
      | some fm =>
        if ((resourceStep (nameScores process_name) [] cpu mem).1.map
              (fun e => e.2)).sum = 0
        then .error "ZeroDivisionError"
        else .ok { category := fm.1,
                   tags := performanceTags cpu mem
                     (resourceStep (nameScores process_name) [] cpu mem).2,
                   confidence := round2 (Rat.divInt fm.2
                     ((resourceStep (nameScores process_name) [] cpu mem).1.map
                       (fun e => e.2)).sum),
                   cpu_usage := cpu, memory_usage := mem,
                   process_name := process_name }
      | none => .ok { category := "unknown",
                      tags := performanceTags cpu mem
                        (resourceStep (nameScores process_name) [] cpu mem).2,
                      confidence := 0, cpu_usage := cpu, memory_usage := mem,
                      process_name := process_name } := rfl

/-- C1 (amended): with the default configuration — no custom rules —
`classify_process` always succeeds and its result satisfies
`confidence == 0` iff `category == "unknown"`; in particular whenever any
category accumulated a score the category is a built-in key and the
rounded confidence is strictly positive, and when none scored the result
is exactly `("unknown", 0)`. -/
theorem classify_confidence_zero_iff_unknown_no_rules (process_name : String)
    (cpu mem : ℚ) :
    ∃ r, classifyProcess [] process_name cpu mem = .ok r ∧
      (r.confidence = 0 ↔ r.category = "unknown") ∧
      (r.category ≠ "unknown" → 0 < r.confidence) := by
  have hinv := resourceStep_inv (nameScores process_name) [] cpu mem
    (nameScores_inv process_name)
  rw [classifyProcess_no_rules]
  cases hfm : firstMax (resourceStep (nameScores process_name) [] cpu mem).1 with
  | none =>
    refine ⟨_, rfl, ?_, ?_⟩
    · exact ⟨fun _ => rfl, fun _ => rfl⟩
    · intro hne; exact absurd rfl hne
  | some fm =>
    obtain ⟨hpos, hnd, hsub⟩ := hinv
    obtain ⟨hfmem, hfle⟩ := firstMax_spec _ fm hfm
    have hfm1 : 1 ≤ fm.2 := hpos fm hfmem
    set sc := (resourceStep (nameScores process_name) [] cpu mem).1 with hscdef
    set total := (sc.map (fun e => e.2)).sum with htot
    have hnonneg : ∀ x ∈ sc.map (fun e => e.2), 1 ≤ x := by
      intro x hx
      obtain ⟨e, he, rfl⟩ := List.mem_map.mp hx
      exact hpos e he
    have hlenpos : 1 ≤ sc.length := by
      cases hc : sc with
      | nil => rw [hc] at hfmem; cases hfmem
      | cons a l => simp
    have htpos : 0 < total := by
      have h1 := List.card_nsmul_le_sum (sc.map (fun e => e.2)) 1 hnonneg
      rw [List.length_map, nsmul_eq_mul, mul_one] at h1
      have : (1 : ℤ) ≤ (sc.length : ℤ) := by exact_mod_cast hlenpos
      omega
    have hlen8 : sc.length ≤ 8 := by
      have hsp : List.Subperm (sc.map Prod.fst) builtinScoreKeys :=
        List.subperm_of_subset hnd (fun k hk => hsub k hk)
      have h1 := hsp.length_le
      rw [List.length_map] at h1
      exact h1
    have hsumle : total ≤ 8 * fm.2 := by
      have h1 := List.sum_le_card_nsmul (sc.map (fun e => e.2)) fm.2 (by
        intro x hx
        obtain ⟨e, he, rfl⟩ := List.mem_map.mp hx
        exact hfle e he)
      rw [List.length_map, nsmul_eq_mul] at h1
      have h2 : (sc.length : ℤ) * fm.2 ≤ 8 * fm.2 := by
        apply mul_le_mul_of_nonneg_right _ (by omega)
        exact_mod_cast hlen8
      omega
    have hcat : fm.1 ≠ "unknown" := by
      have h1 : fm.1 ∈ builtinScoreKeys := hsub fm.1 (List.mem_map.mpr ⟨fm, hfmem, rfl⟩)
      intro hu
      rw [hu] at h1
      revert h1
      decide
    have hconf : 0 < round2 (Rat.divInt fm.2 total) := by
      rw [round2_eq]
      have htq : (0 : ℚ) < (total : ℚ) := by exact_mod_cast htpos
      have hq : (1 : ℚ) / 8 ≤ Rat.divInt fm.2 total := by
        rw [Rat.divInt_eq_div, div_le_div_iff₀ (by norm_num) htq]
        have : (total : ℚ) ≤ 8 * (fm.2 : ℚ) := by exact_mod_cast hsumle
        linarith
      have hfl : (1 : ℤ) ≤ ⌊Rat.divInt fm.2 total * 100 + 1 / 2⌋ := by
        rw [Int.le_floor]
        push_cast
        nlinarith [hq]
      have hflq : (1 : ℚ) ≤ (⌊Rat.divInt fm.2 total * 100 + 1 / 2⌋ : ℚ) := by
        exact_mod_cast hfl
      linarith
    refine ⟨{ category := fm.1,
              tags := performanceTags cpu mem
                (resourceStep (nameScores process_name) [] cpu mem).2,
              confidence := round2 (Rat.divInt fm.2 total),
              cpu_usage := cpu, memory_usage := mem,
              process_name := process_name }, ?_, ?_, ?_⟩
    · exact if_neg (ne_of_gt htpos)
    · constructor
      · intro h0
        exact absurd h0 (ne_of_gt hconf)
      · intro hu
        exact absurd hu hcat
    · intro _
      exact hconf

/-- C1 (amended, witness): the iff at a concrete scoring sample and at a
concrete non-scoring sample, by instantiating the theorem. -/
theorem classify_confidence_zero_iff_unknown_no_rules_witness :
    (∃ r, classifyProcess [] "sshd" 2 1 = .ok r ∧
      (r.confidence = 0 ↔ r.category = "unknown") ∧
      (r.category ≠ "unknown" → 0 < r.confidence)) ∧
    (∃ r, classifyProcess [] "zz" 2 1 = .ok r ∧
      (r.confidence = 0 ↔ r.category = "unknown") ∧
      (r.category ≠ "unknown" → 0 < r.confidence)) :=
  ⟨classify_confidence_zero_iff_unknown_no_rules "sshd" 2 1,
   classify_confidence_zero_iff_unknown_no_rules "zz" 2 1⟩

/-- C2 (counterexample): for the sample `{name:"sshd", cpu:2, memory:1}`
the suggested-tag list is NOT free of the resource-heuristic tags: the
independent performance-tag pass (step 5) fires `low_resource`, whose
default predicate is `cpu < 5 and mem < 5`, so the returned tags contain
`low_resource`. -/
theorem sshd_tags_contain_low_resource :
    ∃ r, classifyProcess [] "sshd" 2 1 = .ok r ∧
      r.category = "network_services" ∧ "low_resource" ∈ r.tags :=
  ⟨{ category := "network_services", tags := ["low_resource"], confidence := 1,
     cpu_usage := 2, memory_usage := 1, process_name := "sshd" },
   by decide, rfl, by decide⟩

/-- C2 (amended): sample `{name:"sshd", cpu:2, memory:1, threads:4,
nice:0}` with no labels classifies as `network_services`; its tag list is
exactly `["low_resource"]` — so it contains none of `cpu_intensive`,
`memory_intensive`, `stable_process`, but does contain `low_resource`
from the independent performance-tag pass; the visual-hint color is
`blue` and the priority is 5. -/
theorem sshd_example_classification :
    (∃ r, classifyProcess [] "sshd" 2 1 = .ok r ∧
      r.category = "network_services" ∧ r.tags = ["low_resource"] ∧
      "cpu_intensive" ∉ r.tags ∧ "memory_intensive" ∉ r.tags ∧
      "stable_process" ∉ r.tags) ∧
    visualHintColor "network_services" 2 1 [] = "blue" ∧
    calculate_priority [] "network_services" 2 = 5 :=
  ⟨⟨{ category := "network_services", tags := ["low_resource"], confidence := 1,
      cpu_usage := 2, memory_usage := 1, process_name := "sshd" },
    by decide, rfl, rfl, by decide, by decide, by decide⟩, by decide, by decide⟩

/-- C3: `ProcessAnomalyDetector.detect` on a batch of fewer than 10
samples returns `anomaly = false` and `score = 0.0` for every element,
whatever the feature values, and never consults the model: the output is
the same for every `model`. -/
theorem analyzer_small_batch_no_anomaly
    (model : List (List ℚ) → List Int × List ℚ) (processes : List Sample)
    (h : processes.length < 10) :
    ProcessAnomalyDetector.detect model processes =
      processes.map (fun p => { sample := p, anomaly := false, score := 0 }) ∧
    ∀ r ∈ ProcessAnomalyDetector.detect model processes,
      r.anomaly = false ∧ r.score = 0 := by
  have he : ProcessAnomalyDetector.detect model processes =
      processes.map (fun p => { sample := p, anomaly := false, score := 0 }) := by
    unfold ProcessAnomalyDetector.detect
    rw [if_pos h]
  refine ⟨he, ?_⟩
  intro r hr
  rw [he] at hr
  obtain ⟨p, _, rfl⟩ := List.mem_map.mp hr
  exact ⟨rfl, rfl⟩

/-- C3 (witness): a batch of 9 samples with extreme feature values is
returned entirely non-anomalous with score 0. -/
theorem analyzer_small_batch_no_anomaly_witness :
    (List.replicate 9 (⟨1, "stress", 95, 80, 200, (-20 : Int)⟩ : Sample)).length < 10 ∧
    ∀ r ∈ ProcessAnomalyDetector.detect (fun _ => ([], []))
        (List.replicate 9 (⟨1, "stress", 95, 80, 200, (-20 : Int)⟩ : Sample)),
      r.anomaly = false ∧ r.score = 0 :=
  ⟨by decide,
   (analyzer_small_batch_no_anomaly (fun _ => ([], []))
     (List.replicate 9 (⟨1, "stress", 95, 80, 200, (-20 : Int)⟩ : Sample))
     (by decide)).2⟩

/-- C4: for every per-sample result of `AnomalyDetector.detect`, whatever
the model predictions and random draws: the assigned source is exactly one
of `"model"`, `"random"`, `"normal"`; `source == "model"` implies the
result is anomalous; `source == "normal"` holds iff the result is not
anomalous; and the reasons list is never empty — it is exactly the CPU
comment, the memory comment, the thread comment, and one
anomaly-attribution comment, in that order. -/
theorem detector_source_invariants (preds : Nat → Int) (scores : Nat → ℚ)
    (draws : Nat → ℚ) (random_rate : ℚ) (processes : List Sample)
    (i : Nat) (p : Sample) (r : DetectorResult) (src : String)
    (hp : processes[i]? = some p)
    (hr : (AnomalyDetector.detect preds scores draws random_rate processes)[i]? = some r)
    (hsrc : src = sourceOf (preds i == -1) (decide (draws i < random_rate))) :
    (src = "model" ∨ src = "random" ∨ src = "normal") ∧
    (src = "model" → r.anomaly = true) ∧
    (src = "normal" ↔ r.anomaly = false) ∧
    r.reasons = [cpuComment p, memComment p, threadComment p,
      if src = "model" then modelMsg
      else if src = "random" then randomMsg else normalMsg] ∧
    r.reasons ≠ [] := by
  subst hsrc
  unfold AnomalyDetector.detect at hr
  rw [List.getElem?_map, List.getElem?_enum, hp] at hr
  simp only [Option.map_some'] at hr
  obtain rfl := (Option.some.injEq _ _).mp hr
  cases hm : (preds i == -1) <;>
    cases hd : (decide (draws i < random_rate)) <;>
      simp_all [sourceOf, explain]

/-- C4 (witness): a single-sample batch where the model flags the sample:
source is `"model"`, the result is anomalous, and the reasons are the
three resource comments followed by the model-attribution message. -/
theorem detector_source_invariants_witness :
    (("model" : String) = "model" ∨ ("model" : String) = "random" ∨
      ("model" : String) = "normal") ∧
    (("model" : String) = "model" →
      (⟨1, "w", 90, 10, 60, 0, true, mkRat (-1) 2,
        explain ⟨1, "w", 90, 10, 60, 0⟩ true "model"⟩ : DetectorResult).anomaly = true) ∧
    (("model" : String) = "normal" ↔
      (⟨1, "w", 90, 10, 60, 0, true, mkRat (-1) 2,
        explain ⟨1, "w", 90, 10, 60, 0⟩ true "model"⟩ : DetectorResult).anomaly = false) ∧
    (⟨1, "w", 90, 10, 60, 0, true, mkRat (-1) 2,
      explain ⟨1, "w", 90, 10, 60, 0⟩ true "model"⟩ : DetectorResult).reasons =
      [cpuComment ⟨1, "w", 90, 10, 60, 0⟩, memComment ⟨1, "w", 90, 10, 60, 0⟩,
       threadComment ⟨1, "w", 90, 10, 60, 0⟩,
       if ("model" : String) = "model" then modelMsg
       else if ("model" : String) = "random" then randomMsg else normalMsg] ∧
    (⟨1, "w", 90, 10, 60, 0, true, mkRat (-1) 2,
      explain ⟨1, "w", 90, 10, 60, 0⟩ true "model"⟩ : DetectorResult).reasons ≠ [] :=
  detector_source_invariants (fun _ => -1) (fun _ => mkRat (-1) 2) (fun _ => 1) 0
    [⟨1, "w", 90, 10, 60, 0⟩] 0 ⟨1, "w", 90, 10, 60, 0⟩
    ⟨1, "w", 90, 10, 60, 0, true, mkRat (-1) 2,
      explain ⟨1, "w", 90, 10, 60, 0⟩ true "model"⟩
    "model" (by decide) (by decide) (by decide)

/-- C5 (counterexample): a malformed custom rule is not always skipped
harmlessly: a rule missing its `category` field whose keywords match the
process name makes `classify_process` raise an uncaught `KeyError` at
`category_scores[rule['category']]` — the call is fatal, not a logged
skip. -/
theorem classify_missing_category_rule_fatal :
    classifyProcess
      [{ category := none, keywords := some ["worker"], cpu_threshold := none,
         memory_threshold := none, weight := none }] "worker1" 10 1 =
      .error "KeyError: category" := by decide

/-- C5 (amended): a custom rule missing its `keywords` field never fires
(`any` over the empty default is false), so it is skipped harmlessly:
classification with the rule present returns exactly the result obtained
with the rule removed, wherever it sits in the rule list. -/
theorem rule_without_keywords_skipped (rules1 rules2 : List Rule) (r : Rule)
    (process_name : String) (cpu mem : ℚ) (h : r.keywords = none) :
    classifyProcess (rules1 ++ r :: rules2) process_name cpu mem =
      classifyProcess (rules1 ++ rules2) process_name cpu mem := by
  have hm : matchRule r process_name cpu mem = false := by
    unfold matchRule
    rw [h]
    rfl
  have key : ∀ sc, applyRules process_name cpu mem (rules1 ++ r :: rules2) sc =
      applyRules process_name cpu mem (rules1 ++ rules2) sc := by
    intro sc
    induction rules1 generalizing sc with
    | nil =>
      simp only [List.nil_append, applyRules, hm]
      rw [if_neg (by simp)]
    | cons r1 rest ih =>
      simp only [List.cons_append, applyRules]
      by_cases h1 : matchRule r1 process_name cpu mem
      · rw [if_pos h1, if_pos h1]
        cases r1.category with
        | none => rfl
        | some c => exact ih _
      · rw [if_neg h1, if_neg h1]
        exact ih _
  simp only [classifyProcess]
  rw [key]

/-- C5 (amended, witness): a concrete rule with no `keywords` field leaves
the classification of a concrete sample unchanged. -/
theorem rule_without_keywords_skipped_witness :
    classifyProcess
      [{ category := some "alpha", keywords := none, cpu_threshold := none,
         memory_threshold := none, weight := some 3 }] "worker1" 10 1 =
      classifyProcess [] "worker1" 10 1 :=
  rule_without_keywords_skipped [] []
    { category := some "alpha", keywords := none, cpu_threshold := none,
      memory_threshold := none, weight := some 3 } "worker1" 10 1 rfl

/-- C8 helper: Python `int(str(n))` is the identity on non-negative
integers. -/
theorem strToNat_natToStr (n : Nat) : strToNat (natToStr n) = n := by
  unfold natToStr strToNat
  by_cases h : n = 0
  · subst h; decide
  · rw [if_neg h]
    show Nat.ofDigits 10
      ((((Nat.digits 10 n).reverse.map (fun d => Char.ofNat (48 + d))).map
        (fun c => c.toNat - 48)).reverse) = n
    rw [List.map_map]
    have hmap : (Nat.digits 10 n).reverse.map
        ((fun c => c.toNat - 48) ∘ (fun d => Char.ofNat (48 + d))) =
        (Nat.digits 10 n).reverse.map id := by
      apply List.map_congr_left
      intro d hd
      have hd10 : d < 10 :=
        Nat.digits_lt_base (by norm_num) (List.mem_reverse.mp hd)
      interval_cases d <;> rfl
    rw [hmap, List.map_id, List.reverse_reverse, Nat.ofDigits_digits]

/-- C8: saving the Label Store and loading it back reproduces the store
exactly: identical pid keys, identical tag sets, identical notes (and
even identical timestamps, which are persisted verbatim as strings). -/
theorem save_load_roundtrip (db : LabelsDb) : load_labels (save_labels db) = db := by
  unfold save_labels load_labels
  rw [List.map_map]
  have : db.map ((fun e : String × LabelRecord => (strToNat e.1, e.2)) ∘
      (fun e : Nat × LabelRecord => (natToStr e.1, e.2))) = db.map id := by
    apply List.map_congr_left
    intro e _
    simp [Function.comp, strToNat_natToStr]
  rw [this, List.map_id]

/-- Looking a key up after an in-place update transforms exactly the found
record. -/
theorem lookupRec_updateRec (db : LabelsDb) (pid : Nat) (f : LabelRecord → LabelRecord) :
    lookupRec (updateRec db pid f) pid = (lookupRec db pid).map f := by
  induction db with
  | nil => rfl
  | cons e rest ih =>
    cases he : (e.1 == pid) with
    | true => simp [updateRec, lookupRec, List.find?, he]
    | false => simpa [updateRec, lookupRec, List.find?, he] using ih

/-- Appending a fresh record for an absent key makes it the looked-up
record. -/
theorem lookupRec_append_fresh (db : LabelsDb) (pid : Nat) (rec0 : LabelRecord)
    (h : lookupRec db pid = none) :
    lookupRec (db ++ [(pid, rec0)]) pid = some rec0 := by
  induction db with
  | nil =>
    show lookupRec [(pid, rec0)] pid = some rec0
    unfold lookupRec
    rw [List.find?_cons_of_pos _ (by simp)]
    rfl
  | cons e rest ih =>
    cases he : (e.1 == pid) with
    | true => simp [lookupRec, List.find?, he] at h
    | false =>
      rw [List.cons_append]
      simp only [lookupRec, List.find?, he] at h ⊢
      exact ih h

/-- After `del labels_db[pid]` the key is gone. -/
theorem lookupRec_eraseKey (db : LabelsDb) (pid : Nat) :
    lookupRec (eraseKey db pid) pid = none := by
  unfold lookupRec eraseKey
  rw [Option.map_eq_none', List.find?_eq_none]
  intro e he
  have := (List.mem_filter.mp he).2
  simp only [Bool.not_eq_true'] at this
  simp [this]

/-- The tag set written by `add_label`'s record mutation. -/
theorem addMutate_tags (label : String) (note : Option String) (now : String)
    (r : LabelRecord) :
    (addMutate label note now r).tags = pySetAdd r.tags label := by
  unfold addMutate
  cases note with
  | none => rfl
  | some n =>
    by_cases hn : n = ""
    · simp [hn]
    · simp [hn]

/-- Python `set.add` really adds the element. -/
theorem mem_pySetAdd (tags : List String) (t : String) : t ∈ pySetAdd tags t := by
  unfold pySetAdd
  by_cases h : tags.contains t
  · rw [if_pos h]; exact List.mem_of_elem_eq_true h
  · rw [if_neg h]; exact List.mem_append_right _ (List.mem_singleton.mpr rfl)

/-- C6: after `add_label(pid, tag)` the store's labels for `pid` contain
`tag`; and if `tag` is the only label of `pid`, then after
`remove_label(pid, tag)` the labels of `pid` are empty and `pid` is
absent from `search_by_tag(t)` for every tag `t` — the whole record is
deleted. -/
theorem add_get_remove_label (db : LabelsDb) (pid : Nat) (tag : String)
    (note : Option String) (now now2 : String) :
    tag ∈ get_process_labels (add_label db pid tag note now) pid ∧
    (get_process_labels db pid = [tag] →
      get_process_labels (remove_label db pid tag now2).1 pid = [] ∧
      ∀ t, pid ∉ search_by_tag (remove_label db pid tag now2).1 t) := by
  constructor
  · unfold add_label
    by_cases hp : (lookupRec db pid).isSome
    · rw [if_pos hp]
      obtain ⟨r0, hr0⟩ := Option.isSome_iff_exists.mp hp
      unfold get_process_labels
      rw [lookupRec_updateRec, hr0]
      simp only [Option.map_some', Option.getD_some]
      rw [addMutate_tags]
      exact mem_pySetAdd _ _
    · rw [if_neg hp]
      have hnone : lookupRec db pid = none := Option.not_isSome_iff_eq_none.mp hp
      unfold get_process_labels
      rw [lookupRec_updateRec, lookupRec_append_fresh db pid _ hnone]
      simp only [Option.map_some', Option.getD_some]
      rw [addMutate_tags]
      exact mem_pySetAdd _ _
  · intro hget
    have hlk : ∃ r0, lookupRec db pid = some r0 ∧ r0.tags = [tag] := by
      unfold get_process_labels at hget
      cases h : lookupRec db pid with
      | none => rw [h] at hget; simp at hget
      | some r0 =>
        rw [h] at hget
        simp only [Option.map_some', Option.getD_some] at hget
        exact ⟨r0, rfl, hget⟩
    obtain ⟨r0, hr0, htags⟩ := hlk
    have hres : (remove_label db pid tag now2).1 = eraseKey db pid := by
      unfold remove_label
      rw [hr0]
      simp [htags]
    rw [hres]
    constructor
    · unfold get_process_labels
      rw [lookupRec_eraseKey]
      rfl
    · intro t ht
      unfold search_by_tag at ht
      obtain ⟨e, he, hept⟩ := List.mem_map.mp ht
      have h1 := List.mem_filter.mp he
      have h2 := (List.mem_filter.mp h1.1).2
      simp only [Bool.not_eq_true'] at h2
      rw [hept] at h2
      simp at h2

/-- The Label Store's well-formedness invariant: dict keys are unique and
every record carries a non-empty tag set. -/
def StoreWF (db : LabelsDb) : Prop :=
  (db.map Prod.fst).Nodup ∧ ∀ e ∈ db, e.2.tags ≠ []

/-- `updateRec` leaves the key sequence unchanged. -/
theorem keys_updateRec (db : LabelsDb) (pid : Nat) (f : LabelRecord → LabelRecord) :
    (updateRec db pid f).map Prod.fst = db.map Prod.fst := by
  unfold updateRec
  rw [List.map_map]
  apply List.map_congr_left
  intro e _
  by_cases he : e.1 = pid <;> simp [he]

/-- `pySetAdd` never returns an empty list. -/
theorem pySetAdd_ne_nil (tags : List String) (t : String) : pySetAdd tags t ≠ [] := by
  intro h
  exact (List.ne_nil_of_mem (mem_pySetAdd tags t)) h

/-- With unique keys, a store member is exactly what lookup finds for its
key. -/
theorem lookup_of_mem_nodup (db : LabelsDb) (e : Nat × LabelRecord)
    (hnd : (db.map Prod.fst).Nodup) (he : e ∈ db) :
    lookupRec db e.1 = some e.2 := by
  induction db with
  | nil => cases he
  | cons x rest ih =>
    rcases List.mem_cons.mp he with rfl | htail
    · simp [lookupRec, List.find?]
    · have hx : (x.1 == e.1) = false := by
        simp only [List.map_cons, List.nodup_cons] at hnd
        rw [beq_eq_false_iff_ne]
        intro hxe
        exact hnd.1 (hxe ▸ List.mem_map.mpr ⟨e, htail, rfl⟩)
      simp only [lookupRec, List.find?, hx]
      exact ih (by
        simp only [List.map_cons, List.nodup_cons] at hnd
        exact hnd.2) htail

/-- C7: the Label Store invariant — unique pid keys, each mapping to a
non-empty tag set — is preserved by `add_label` (which never leaves an
empty tag set) and by `remove_label` (which deletes the whole record when
removing the tag would empty it). -/
theorem label_store_invariant_preserved (db : LabelsDb) (pid : Nat) (label : String)
    (note : Option String) (now now2 : String) (h : StoreWF db) :
    StoreWF (add_label db pid label note now) ∧
    StoreWF (remove_label db pid label now2).1 := by
  obtain ⟨hnd, hwf⟩ := h
  constructor
  · unfold add_label
    by_cases hp : (lookupRec db pid).isSome
    · rw [if_pos hp]
      refine ⟨by rw [keys_updateRec]; exact hnd, ?_⟩
      intro e' he'
      obtain ⟨e, he, rfl⟩ := List.mem_map.mp he'
      by_cases hk : (e.1 == pid) = true
      · simp only [if_pos hk]
        rw [addMutate_tags]
        exact pySetAdd_ne_nil _ _
      · simp only [if_neg hk]
        exact hwf e he
    · rw [if_neg hp]
      have hnone : lookupRec db pid = none := Option.not_isSome_iff_eq_none.mp hp
      have hpid_fresh : pid ∉ db.map Prod.fst := by
        intro hmem
        obtain ⟨e, he, hk⟩ := List.mem_map.mp hmem
        have hfind : List.find? (fun e => e.1 == pid) db = none := by
          unfold lookupRec at hnone
          exact Option.map_eq_none'.mp hnone
        have hne := List.find?_eq_none.mp hfind e he
        rw [hk] at hne
        simp at hne
      constructor
      · rw [keys_updateRec]
        rw [List.map_append]
        rw [List.nodup_append]
        exact ⟨hnd, List.nodup_singleton _, by
          intro a ha hb
          simp only [List.map_cons, List.map_nil, List.mem_singleton] at hb
          subst hb
          exact hpid_fresh ha⟩
      · intro e' he'
        obtain ⟨e, he, rfl⟩ := List.mem_map.mp he'
        by_cases hk : (e.1 == pid) = true
        · simp only [if_pos hk]
          rw [addMutate_tags]
          exact pySetAdd_ne_nil _ _
        · simp only [if_neg hk]
          rcases List.mem_append.mp he with hdb | hfresh
          · exact hwf e hdb
          · exfalso
            simp only [List.mem_singleton] at hfresh
            subst hfresh
            simp at hk
  · cases hlk : lookupRec db pid with
    | none =>
      have heq : (remove_label db pid label now2).1 = db := by
        unfold remove_label
        rw [hlk]
      rw [heq]
      exact ⟨hnd, hwf⟩
    | some r0 =>
      by_cases hmem : label ∈ r0.tags
      · by_cases hemp : (r0.tags.erase label).isEmpty
        · have heq : (remove_label db pid label now2).1 = eraseKey db pid := by
            unfold remove_label
            rw [hlk]
            simp [hmem, hemp]
          rw [heq]
          constructor
          · exact List.Nodup.sublist (List.Sublist.map _ (List.filter_sublist db)) hnd
          · intro e he
            exact hwf e (List.mem_of_mem_filter he)
        · have heq : (remove_label db pid label now2).1 =
              updateRec db pid (removeMutate label now2) := by
            unfold remove_label
            rw [hlk]
            simp [hmem, hemp]
          rw [heq]
          refine ⟨by rw [keys_updateRec]; exact hnd, ?_⟩
          intro e' he'
          obtain ⟨e, he, rfl⟩ := List.mem_map.mp he'
          by_cases hk : (e.1 == pid) = true
          · simp only [if_pos hk]
            have he2 : e.2 = r0 := by
              have := lookup_of_mem_nodup db e hnd he
              rw [show e.1 = pid from by simpa using hk, hlk] at this
              exact (Option.some.injEq _ _).mp this.symm
            simp only [he2]
            intro hnil
            have hl : r0.tags.erase label = [] := hnil
            rw [hl] at hemp
            exact hemp rfl
          · simp only [if_neg hk]
            exact hwf e he
      · have heq : (remove_label db pid label now2).1 = db := by
          unfold remove_label
          rw [hlk]
          simp [hmem]
        rw [heq]
        exact ⟨hnd, hwf⟩

/-- C6 (witness): on the concrete store `{5 ↦ {"monitor_closely"}}`:
adding `"experimental"` makes it retrievable, and removing the only tag
`"monitor_closely"` of a fresh store empties the record and removes the
pid from every tag search. -/
theorem add_get_remove_label_witness :
    "experimental" ∈ get_process_labels
      (add_label [(5, ⟨["monitor_closely"], "", "t0"⟩)] 5 "experimental" none "t1") 5 ∧
    get_process_labels
      (remove_label [(5, ⟨["monitor_closely"], "", "t0"⟩)] 5 "monitor_closely" "t1").1 5 = [] ∧
    5 ∉ search_by_tag
      (remove_label [(5, ⟨["monitor_closely"], "", "t0"⟩)] 5 "monitor_closely" "t1").1
      "monitor_closely" :=
  ⟨(add_get_remove_label [(5, ⟨["monitor_closely"], "", "t0"⟩)] 5 "experimental"
      none "t1" "t1").1,
   ((add_get_remove_label [(5, ⟨["monitor_closely"], "", "t0"⟩)] 5 "monitor_closely"
      none "t1" "t1").2 (by decide)).1,
   ((add_get_remove_label [(5, ⟨["monitor_closely"], "", "t0"⟩)] 5 "monitor_closely"
      none "t1" "t1").2 (by decide)).2 "monitor_closely"⟩

/-- C7 (witness): the invariant holds for a concrete two-record store and
is preserved by a concrete `add_label` and `remove_label`. -/
theorem label_store_invariant_preserved_witness :
    StoreWF [(3, ⟨["high_priority"], "boss", "t0"⟩), (7, ⟨["experimental"], "", "t0"⟩)] ∧
    (StoreWF (add_label
        [(3, ⟨["high_priority"], "boss", "t0"⟩), (7, ⟨["experimental"], "", "t0"⟩)]
        7 "auto_restart" (some "note") "t1") ∧
      StoreWF (remove_label
        [(3, ⟨["high_priority"], "boss", "t0"⟩), (7, ⟨["experimental"], "", "t0"⟩)]
        7 "experimental" "t1").1) :=
  ⟨⟨by decide, by decide⟩,
   label_store_invariant_preserved
     [(3, ⟨["high_priority"], "boss", "t0"⟩), (7, ⟨["experimental"], "", "t0"⟩)]
     7 "auto_restart" (some "note") "t1" "t1" ⟨by decide, by decide⟩ |>.imp
       id (fun _ => label_store_invariant_preserved
         [(3, ⟨["high_priority"], "boss", "t0"⟩), (7, ⟨["experimental"], "", "t0"⟩)]
         7 "experimental" (some "note") "t1" "t1" ⟨by decide, by decide⟩ |>.2)⟩

/-- C9: `calculate_priority` is monotonically non-decreasing under adding
the `high_priority` label, under raising cpu (in particular above 80),
and under switching the category to `system_critical`, holding the other
inputs fixed; and the result never exceeds 10. -/
theorem priority_monotone_bounded (user_labels : List String) (category : String)
    (cpu : ℚ) :
    (calculate_priority user_labels category cpu ≤
      calculate_priority ("high_priority" :: user_labels) category cpu) ∧
    (∀ cpu2 : ℚ, cpu ≤ cpu2 →
      calculate_priority user_labels category cpu ≤
        calculate_priority user_labels category cpu2) ∧
    (calculate_priority user_labels category cpu ≤
      calculate_priority user_labels "system_critical" cpu) ∧
    calculate_priority user_labels category cpu ≤ 10 := by
  refine ⟨?_, ?_, ?_, ?_⟩
  · simp only [calculate_priority, List.contains_cons, beq_self_eq_true, Bool.true_or,
      if_true]
    split_ifs <;> omega
  · intro cpu2 hc
    simp only [calculate_priority]
    split_ifs <;> first | omega | linarith
  · simp only [calculate_priority]
    split_ifs <;> omega
  · simp only [calculate_priority]
    split_ifs <;> omega

/-- C9 (witness): monotonicity instances at concrete inputs (cpu raised
from 2 to 90) and the bound at a concrete input. -/
theorem priority_monotone_bounded_witness :
    ((2 : ℚ) ≤ 90 ∧
      calculate_priority [] "user_applications" 2 ≤
        calculate_priority [] "user_applications" 90) ∧
    calculate_priority [] "user_applications" 2 ≤ 10 :=
  ⟨⟨by norm_num,
    (priority_monotone_bounded [] "user_applications" 2).2.1 90 (by norm_num)⟩,
   (priority_monotone_bounded [] "user_applications" 2).2.2.2⟩

/-- C10: `merge_with_classification` treats a result whose pid is 0 as
label-less — the presence test `if pid:` is Python truthiness, not store
membership — so such a result gets empty `manual_labels` and a `false`
`has_manual_labels` flag for every store state, even one holding a record
for pid 0. -/
theorem merge_pid_zero_no_labels (db : LabelsDb)
    (results : List (ClassResult × Option Nat)) (r : MergedResult)
    (hr : r ∈ merge_with_classification db results)
    (hpid : r.pid = some 0) :
    r.manual_labels = [] ∧ r.has_manual_labels = false := by
  obtain ⟨rp, _, rfl⟩ := List.mem_map.mp hr
  by_cases ht : pyTruthy rp.2 = true
  · rw [if_pos ht] at hpid
    rw [show rp.2 = some 0 from hpid] at ht
    simp [pyTruthy] at ht
  · rw [if_neg ht]
    exact ⟨rfl, rfl⟩

/-- C10 (witness): a concrete store holding a record for pid 0, whose
labels are nonetheless not attached to a result carrying pid 0. -/
theorem merge_pid_zero_no_labels_witness :
    (⟨⟨"unknown", [], 0, 0, 0, "p"⟩, some 0, [], false⟩ : MergedResult) ∈
      merge_with_classification [(0, ⟨["high_priority"], "", "t0"⟩)]
        [(⟨"unknown", [], 0, 0, 0, "p"⟩, some 0)] ∧
    (⟨⟨"unknown", [], 0, 0, 0, "p"⟩, some 0, [], false⟩ :
      MergedResult).manual_labels = [] ∧
    (⟨⟨"unknown", [], 0, 0, 0, "p"⟩, some 0, [], false⟩ :
      MergedResult).has_manual_labels = false :=
  ⟨by decide,
   merge_pid_zero_no_labels [(0, ⟨["high_priority"], "", "t0"⟩)]
     [(⟨"unknown", [], 0, 0, 0, "p"⟩, some 0)]
     ⟨⟨"unknown", [], 0, 0, 0, "p"⟩, some 0, [], false⟩
     (by decide) rfl⟩

end AIPS
